import Mathlib

/-!
Verification of the ledger-output parsing and valuation layer of the
`helios` reporting script (`src/main.go`).

Modelling conventions:
* Go strings are modelled as `List Char` (`Str`).  All inputs relevant to
  the claims are ASCII, where Go's byte indexing coincides with character
  indexing.
* `float64` amounts are modelled as exact rationals (`ℚ`); decimal parsing
  and the arithmetic in scope (`+ - *`) are exact, so rounding never
  changes any of the statements below.  The one place where IEEE special
  values matter — division by a zero cost basis — is modelled explicitly
  by `FloatVal`/`goDiv`.
* `strconv.ParseFloat(s, _)` is modelled on its decimal fragment
  (optional sign, digits, optional fractional part); the exotic forms
  (exponents, hex, inf/nan spellings) never occur in the claims.
* A Go run-time panic (out-of-range string slice) is modelled by the
  explicit outcome `GoResult.panic`; functions that cannot panic return
  the two-constructor `Res`.
-/

namespace Helios

/-- Go strings as character lists. -/
abbrev Str := List Char

/-- ASCII white space recognised by `strings.TrimSpace` (`unicode.IsSpace`
restricted to ASCII, which covers every input in scope). -/
def isSpaceChar (c : Char) : Bool :=
  c = ' ' || c = '\t' || c = '\n' || c = '\r' || c = '\x0b' || c = '\x0c'

/-- `strings.TrimSpace`: drop white space from both ends. -/
def trimSpace (s : Str) : Str :=
  ((s.dropWhile isSpaceChar).reverse.dropWhile isSpaceChar).reverse

/-- `strings.ReplaceAll(s, ",", "")`: delete every comma. -/
def removeCommas (s : Str) : Str :=
  s.filter (fun c => c != ',')

/-- `strings.Split(s, sep)` for a single-character separator: cut at every
occurrence of `sep`; the result is never empty and keeps empty segments. -/
def splitOnChar (sep : Char) : Str → List Str
  | [] => [[]]
  | c :: rest =>
    if c = sep then [] :: splitOnChar sep rest
    else
      match splitOnChar sep rest with
      | [] => [[c]]
      | h :: t => (c :: h) :: t

/-- `strings.Split(out, "------\n")` (src/main.go:186), specialised to its
fixed seven-character separator: scan left to right, cutting at each
(non-overlapping) occurrence of `------` followed by a newline; empty
segments are kept and the result is never empty. -/
def splitDashes : Str → List Str
  | '-' :: '-' :: '-' :: '-' :: '-' :: '-' :: '\n' :: rest => [] :: splitDashes rest
  | c :: rest =>
    match splitDashes rest with
    | [] => [[c]]
    | h :: t => (c :: h) :: t
  | [] => [[]]

/-- Accumulator pass of the decimal-digit parser: `some` of the value iff
every character is a digit. -/
def digitsValAux (acc : ℕ) : Str → Option ℕ
  | [] => some acc
  | c :: rest =>
    if c.isDigit then digitsValAux (acc * 10 + (c.toNat - 48)) rest else none

/-- Value of an all-digit string (the empty string counts as 0, matching
its use for the omitted side of a decimal point). -/
def allDigitsVal (s : Str) : Option ℕ :=
  digitsValAux 0 s

/-- Unsigned decimal literal: `digits`, `digits.digits`, `digits.` or
`.digits` (at least one digit overall), as accepted by
`strconv.ParseFloat`. -/
def parseUnsigned (s : Str) : Option ℚ :=
  match splitOnChar '.' s with
  | [w] =>
    if w = [] then none
    else (allDigitsVal w).map (fun n => (n : ℚ))
  | [w, f] =>
    if w = [] ∧ f = [] then none
    else
      match allDigitsVal w, allDigitsVal f with
      | some nw, some nf => some ((nw : ℚ) + (nf : ℚ) / ((10 : ℚ) ^ f.length))
      | _, _ => none
  | _ => none

/-- `strconv.ParseFloat` on its decimal fragment: optional sign, then an
unsigned decimal literal.  Returns `none` exactly where Go returns a
`NumError`. -/
def parseFloat (s : Str) : Option ℚ :=
  match s with
  | [] => none
  | c :: rest =>
    if c = '-' then (parseUnsigned rest).map (fun q => -q)
    else if c = '+' then parseUnsigned rest
    else parseUnsigned (c :: rest)

/-- The error kinds named by the spec (§7).  The Go code's own error
values map onto them as follows: the structural `fmt.Errorf`/`errors.New`
failures of the parsers are `malformedOutput`, a `strconv` failure passed
through unchanged is `numberFormatError`, and a failed
`cmd.CombinedOutput()` is `externalProcessError`. -/
inductive GoError where
  | malformedOutput
  | numberFormatError
  | externalProcessError
deriving DecidableEq

/-- Result of a Go function returning `(T, error)` that cannot panic. -/
inductive Res (α : Type) where
  | ok (a : α)
  | err (e : GoError)
deriving DecidableEq

/-- Result of a Go function returning `(T, error)` whose body contains
unguarded string slices: `panic` models a run-time slice-bounds panic. -/
inductive GoResult (α : Type) where
  | ok (a : α)
  | error (e : GoError)
  | panic
deriving DecidableEq

/-- `true` iff the result is a value-returning error. -/
def resErr {α : Type} : Res α → Bool
  | .err _ => true
  | .ok _ => false

/-- `true` iff the result is a success. -/
def goOk {α : Type} : GoResult α → Bool
  | .ok _ => true
  | _ => false

/-- `true` iff the result is a value-returning error (not a panic). -/
def goErr {α : Type} : GoResult α → Bool
  | .error _ => true
  | _ => false

/-- `lines[len(lines)-2]` of `returnLineSummary` (src/main.go:301). -/
def secondToLast (lines : List Str) : Str :=
  lines.getD (lines.length - 2) []

/-- Lines 305–312 of `returnLineSummary`: strip the first character
(`sum[1:]`), delete commas, and parse as a decimal.  The slice is in
bounds because the caller has checked `len(sum) ≥ 1`. -/
def parseMoney (sum : Str) : Res ℚ :=
  match parseFloat (removeCommas (sum.drop 1)) with
  | some q => .ok q
  | none => .err .numberFormatError

/-- Embedding of `returnLineSummary` (src/main.go:292–313), the spec's
`parseSummaryLine`, applied to the text of the command's combined output
(a failed command is modelled separately, by the environment of
`runMain`).  Every string slice in the Go body is guarded by a length
check, so the function is total and cannot panic. -/
def returnLineSummary (out : Str) : Res ℚ :=
  if (splitOnChar '\n' out).length < 4 then .err .malformedOutput
  else if (trimSpace (secondToLast (splitOnChar '\n' out))).length < 1 then
    .err .malformedOutput
  else parseMoney (trimSpace (secondToLast (splitOnChar '\n' out)))

/-- Embedding of `returnSingleLine` (src/main.go:276–290), the spec's
`parseSingleLine`.  The Go body computes
`strings.Split(strings.TrimSpace(out), " ")[0][1:]`; the `[1:]` slice is
unguarded, so when the first token is empty (empty or all-white-space
input) the Go program panics with a slice-bounds error — modelled by
`.panic`. -/
def returnSingleLine (out : Str) : GoResult ℚ :=
  if ((splitOnChar ' ' (trimSpace out)).getD 0 []).length < 1 then .panic
  else
    match parseFloat (removeCommas (((splitOnChar ' ' (trimSpace out)).getD 0 []).drop 1)) with
    | some q => .ok q
    | none => .error .numberFormatError

/-- One iteration of the row loop of `getCostBasis` (src/main.go:196–212):
split the row on single spaces; fewer than 3 tokens is a structural error;
parse `values[0]` as the quantity; slice `values[2][2:len(values[2])-1]`
— which panics when the third token has fewer than 3 characters — and
parse it as the unit basis; the entry value is `quantity * basis`.  All
error returns reuse the single message
"could not parse cost basis command output" (`malformedOutput`). -/
def parseCostRow (line : Str) : GoResult (Str × ℚ) :=
  if (splitOnChar ' ' line).length < 3 then .error .malformedOutput
  else
    match parseFloat ((splitOnChar ' ' line).getD 0 []) with
    | none => .error .malformedOutput
    | some quantity =>
      if ((splitOnChar ' ' line).getD 2 []).length < 3 then .panic
      else
        match parseFloat ((((splitOnChar ' ' line).getD 2 []).drop 2).take
            (((splitOnChar ' ' line).getD 2 []).length - 3)) with
        | none => .error .malformedOutput
        | some basis => .ok ((splitOnChar ' ' line).getD 1 [], quantity * basis)

/-- The Go map `map[string]float64`, represented as an association list
with unique keys (Go map iteration order is unspecified; this
representation fixes an order without affecting any claim). -/
abbrev CostMap := List (Str × ℚ)

/-- Remove every entry with the given key. -/
def mapErase : CostMap → Str → CostMap
  | [], _ => []
  | p :: rest, k => if p.1 = k then mapErase rest k else p :: mapErase rest k

/-- `res[ticker] = v`: overwrite semantics of a Go map assignment. -/
def mapInsert (m : CostMap) (k : Str) (v : ℚ) : CostMap :=
  mapErase m k ++ [(k, v)]

/-- Go map lookup. -/
def mapLookup : CostMap → Str → Option ℚ
  | [], _ => none
  | p :: rest, k => if p.1 = k then some p.2 else mapLookup rest k

/-- The row loop of `getCostBasis`: fold the rows into the map, stopping
at the first error (or panic). -/
def costLoop : List Str → CostMap → GoResult CostMap
  | [], acc => .ok acc
  | line :: rest, acc =>
    match parseCostRow line with
    | .ok tv => costLoop rest (mapInsert acc tv.1 tv.2)
    | .error e => .error e
    | .panic => .panic

/-- `lines[1 : len(lines)-1]` of the segment after the dash separator:
the rows that the loop of `getCostBasis` actually visits (the first and
last line of the segment are discarded). -/
def keptRows (out : Str) : List Str :=
  ((splitOnChar '\n' ((splitDashes out).getD 1 [])).drop 1).take
    ((splitOnChar '\n' ((splitDashes out).getD 1 [])).length - 2)

/-- Embedding of `getCostBasis` (src/main.go:178–215), the spec's
`parseCostBasisTable`, applied to the command's output text: split on
`"------\n"` (fewer than 2 segments is a structural error), split the
second segment into lines (fewer than 2 lines is a structural error),
drop the first and last line, and run the row loop. -/
def getCostBasis (out : Str) : GoResult CostMap :=
  if (splitDashes out).length < 2 then .error .malformedOutput
  else if (splitOnChar '\n' ((splitDashes out).getD 1 [])).length < 2 then
    .error .malformedOutput
  else costLoop (keptRows out) []

/-- A Go `float64` value handed to the metrics sink: either an exact
finite amount or one of the IEEE special values produced by dividing by
zero.  Only the division on line 153 of src/main.go can produce a
non-finite value. -/
inductive FloatVal where
  | finite (q : ℚ)
  | posInf
  | negInf
  | nan
deriving DecidableEq

/-- Go `float64` division on exactly-represented operands: IEEE rules for
a zero divisor (`x/0` is `+Inf`, `-Inf` or `NaN` by the sign of `x`),
exact quotient otherwise. -/
def goDiv (x y : ℚ) : FloatVal :=
  if y = 0 then
    if 0 < x then .posInf else if x < 0 then .negInf else .nan
  else .finite (x / y)

/-- Field-name and tag constants used by `main` (src/main.go:149–170). -/
def fBasis : Str := "basis".toList

/-- The `market` field name. -/
def fMarket : Str := "market".toList

/-- The `gain` field name (mandatory-account points). -/
def fGain : Str := "gain".toList

/-- The `gain-percent` field name (per-security points). -/
def fGainPercent : Str := "gain-percent".toList

/-- The `account` tag of the IRA point. -/
def iraTag : Str := "ira".toList

/-- The `account` tag of the taxable-account point. -/
def taxTag : Str := "tax".toList

/-- One point handed to the reporting sink (`influxdb2.NewPointWithMeasurement`
with an `account` tag and a list of named fields). -/
structure Point where
  account : Str
  fields : List (Str × FloatVal)
deriving DecidableEq

/-- The per-security point of src/main.go:149–154: tagged with the ticker,
fields `basis`, `market` and the unguarded division
`gain-percent = (value - basis) / basis`. -/
def mkSecPoint (ticker : Str) (basis value : ℚ) : Point :=
  ⟨ticker, [(fBasis, .finite basis), (fMarket, .finite value),
    (fGainPercent, goDiv (value - basis) basis)]⟩

/-- The mandatory-account point of src/main.go:158–170: fields `basis`,
`market` and `gain = market - basis`. -/
def mkMandPoint (tag : Str) (basis market : ℚ) : Point :=
  ⟨tag, [(fBasis, .finite basis), (fMarket, .finite market),
    (fGain, .finite (market - basis))]⟩

/-- The environment of one report cycle: the outcome of each external
query composed with its parser.  The four mandatory lookups are
`returnLineSummary` applied to a ledger invocation (a failed command is
an `externalProcessError`); they cannot panic, hence `Res`.  The optional
cost-basis table is `getCostBasis`, and each per-ticker market lookup is
`returnSingleLine`; both can panic, hence `GoResult`.  `marketHours` is
the value of `isMarketHours()` and `priceDbOk` tells whether
`updatePriceDb` succeeds when invoked. -/
structure Env where
  basisIra : Res ℚ
  basisTax : Res ℚ
  marketIra : Res ℚ
  marketTax : Res ℚ
  marketHours : Bool
  priceDbOk : Bool
  costBasis : GoResult CostMap
  tickerMarket : Str → GoResult ℚ

/-- The outcome of one run of `main`: `aborted code` models `bail(err, code)`
(alert, print, `os.Exit(code)`) before the sink is even created, `panicked`
models an uncaught run-time panic, and `completed pts` models reaching the
end of `main`, where exactly `pts` have been written and `Flush` and
`Close` are then called. -/
inductive RunResult where
  | aborted (code : ℕ)
  | panicked
  | completed (points : List Point)
deriving DecidableEq

/-- The per-security loop of src/main.go:136–155: for each entry of the
cost-basis map, query the ticker's market value; a value-returning error
skips the ticker (`continue`), a success writes `mkSecPoint`, and a panic
escapes the loop (`none`). -/
def tickerLoop (env : Env) : CostMap → Option (List Point)
  | [] => some []
  | (ticker, basis) :: rest =>
    match env.tickerMarket ticker with
    | .panic => none
    | .error _ => tickerLoop env rest
    | .ok value =>
      match tickerLoop env rest with
      | none => none
      | some pts => some (mkSecPoint ticker basis value :: pts)

/-- Embedding of the control flow of `main` (src/main.go:93–176) after
`setupRepo`: the two basis queries with `bail(·, 1)` on the first error
(IRA checked first), the conditional price-db refresh whose failure also
bails with code 1, the two market queries with the same error policy, the
optional cost-basis loop whose own failure merely skips the loop, the two
mandatory points, and the final flush.  The sink (`client`/`writeApi`) is
created only after every mandatory check has passed, so an aborted run
has written nothing. -/
def runMain (env : Env) : RunResult :=
  match env.basisIra, env.basisTax with
  | .err _, _ => .aborted 1
  | .ok _, .err _ => .aborted 1
  | .ok basisIraOutput, .ok basisTaxOutput =>
    if env.marketHours && !env.priceDbOk then .aborted 1
    else
      match env.marketIra, env.marketTax with
      | .err _, _ => .aborted 1
      | .ok _, .err _ => .aborted 1
      | .ok marketIraOutput, .ok marketTaxOutput =>
        match env.costBasis with
        | .panic => .panicked
        | .error _ =>
          .completed [mkMandPoint iraTag basisIraOutput marketIraOutput,
            mkMandPoint taxTag basisTaxOutput marketTaxOutput]
        | .ok m =>
          match tickerLoop env m with
          | none => .panicked
          | some pts =>
            .completed (pts ++ [mkMandPoint iraTag basisIraOutput marketIraOutput,
              mkMandPoint taxTag basisTaxOutput marketTaxOutput])

/-- `true` iff a mandatory query or parse failed (the hypothesis of the
fatal-abort contract). -/
def mandatoryFailed (env : Env) : Bool :=
  resErr env.basisIra || resErr env.basisTax || resErr env.marketIra || resErr env.marketTax

/-- `writeApi.Flush()` runs exactly on the success path of `main`. -/
def flushCalled : RunResult → Bool
  | .completed _ => true
  | _ => false

/-- The points written to the sink during a run (none unless the run
reaches the write section). -/
def pointsWritten : RunResult → List Point
  | .completed pts => pts
  | _ => []

/-- A concrete report cycle whose cost-basis table holds one security with
a zero basis whose market lookup returns 1.0; every mandatory lookup
succeeds. -/
def envZeroBasis : Env :=
  ⟨.ok 1, .ok 1, .ok 1, .ok 1, false, true, .ok [("Z".toList, 0)], fun _ => .ok 1⟩

/-- A concrete report cycle whose IRA basis query fails. -/
def envMandFail : Env :=
  ⟨.err .externalProcessError, .ok 1, .ok 1, .ok 1, false, true,
    .error .malformedOutput, fun _ => .ok 0⟩

/-- A concrete report cycle with two securities whose market lookup fails
for ticker `A` and succeeds (5.0) for every other ticker. -/
def envTickerFail : Env :=
  ⟨.ok 1, .ok 2, .ok 3, .ok 4, false, true,
    .ok [("A".toList, 1), ("B".toList, 2)],
    fun s => if s = "A".toList then .error .externalProcessError else .ok 5⟩

/-- A row is well formed iff the loop iteration turns it into an entry. -/
def rowOk (line : Str) : Bool :=
  match parseCostRow line with
  | .ok _ => true
  | _ => false

/-- The entry produced by a well-formed row, `none` otherwise. -/
def rowEntry (line : Str) : Option (Str × ℚ) :=
  match parseCostRow line with
  | .ok tv => some tv
  | _ => none

/-- The pure fold of the row loop over well-formed rows. -/
def costFold (rows : List Str) (acc : CostMap) : CostMap :=
  rows.foldl
    (fun m r =>
      match rowEntry r with
      | some tv => mapInsert m tv.1 tv.2
      | none => m)
    acc

/-- First-defined choice on options (the fallback combinator used to state
the "last write wins" lookup lemma). -/
def optOr {α : Type} : Option α → Option α → Option α
  | some x, _ => some x
  | none, y => y

/-- The value of the last well-formed row for a given ticker (the
"last write wins" reading of the duplicate-ticker contract). -/
def lastRowVal (rows : List Str) (t : Str) : Option ℚ :=
  ((rows.filterMap rowEntry).reverse.find? (fun p => decide (p.1 = t))).map Prod.snd

/-- The unit cost exactly as claim C5 words it: discard one leading
currency-symbol character and one trailing character from the cost token,
plus thousands separators, then parse.  (Stated from the claim's words,
for comparison against `parseCostRow`, which discards two leading
characters and parses with no comma removal.) -/
def specUnitCost (tok : Str) : Option ℚ :=
  parseFloat (removeCommas ((tok.drop 1).take (tok.length - 2)))

section Theorems

/-- Every level of `splitOnChar` returns at least one segment. -/
theorem splitOnChar_ne_nil (sep : Char) (s : Str) : splitOnChar sep s ≠ [] := by
  induction s with
  | nil => simp [splitOnChar]
  | cons c rest ih =>
    simp only [splitOnChar]
    by_cases h : c = sep
    · simp [h]
    · rw [if_neg h]
      cases hs : splitOnChar sep rest with
      | nil => exact absurd hs ih
      | cons hd tl => simp

/-- `splitOnChar` returns at least one segment. -/
theorem splitOnChar_length_pos (sep : Char) (s : Str) : 1 ≤ (splitOnChar sep s).length := by
  cases hs : splitOnChar sep s with
  | nil => exact absurd hs (splitOnChar_ne_nil sep s)
  | cons hd tl => simp

/-- Splitting a concatenation at an explicit separator concatenates the
splits. -/
theorem splitOnChar_append_cons (sep : Char) (x y : Str) :
    splitOnChar sep (x ++ sep :: y) = splitOnChar sep x ++ splitOnChar sep y := by
  induction x with
  | nil => simp [splitOnChar]
  | cons c rest ih =>
    simp only [List.cons_append, splitOnChar]
    by_cases h : c = sep
    · simp [h, ih]
    · rw [if_neg h, if_neg h, List.append_eq, ih]
      cases hs : splitOnChar sep rest with
      | nil => exact absurd hs (splitOnChar_ne_nil sep rest)
      | cons hd tl => simp

/-- `getD` past a fully-skipped prefix. -/
theorem getD_append_length {α : Type} (l l' : List α) (i : ℕ) (d : α) :
    (l ++ l').getD (l.length + i) d = l'.getD i d := by
  induction l with
  | nil => simp
  | cons a rest ih =>
    rw [List.length_cons, Nat.add_right_comm, List.cons_append, List.getD_cons_succ]
    exact ih

/-- C8: `parseSummaryLine` (`returnLineSummary`) fails with `MalformedOutput`
for every input that splits into fewer than 4 lines, and for every input
whose second-to-last line is empty after trimming surrounding white
space. -/
theorem summary_malformed_inputs (out : Str) :
    ((splitOnChar '\n' out).length < 4 →
      returnLineSummary out = .err .malformedOutput) ∧
    (trimSpace (secondToLast (splitOnChar '\n' out)) = [] →
      returnLineSummary out = .err .malformedOutput) := by
  constructor
  · intro h
    simp only [returnLineSummary]
    rw [if_pos h]
  · intro h
    by_cases hl : (splitOnChar '\n' out).length < 4
    · simp only [returnLineSummary]
      rw [if_pos hl]
    · simp only [returnLineSummary]
      rw [if_neg hl, if_pos (by rw [h]; decide)]

/-- Witness for C8 at the spec's own scenario `"foo\nbar\n"` (2 lines plus
the trailing empty segment) and at a 4-line input whose second-to-last
line is blank. -/
theorem summary_malformed_inputs_witness :
    ((splitOnChar '\n' "foo\nbar\n".toList).length < 4 ∧
      returnLineSummary "foo\nbar\n".toList = .err .malformedOutput) ∧
    (trimSpace (secondToLast (splitOnChar '\n' "a\nb\nc\n\n".toList)) = [] ∧
      returnLineSummary "a\nb\nc\n\n".toList = .err .malformedOutput) :=
  ⟨⟨by decide, (summary_malformed_inputs "foo\nbar\n".toList).1 (by decide)⟩,
    ⟨by decide, (summary_malformed_inputs "a\nb\nc\n\n".toList).2 (by decide)⟩⟩

/-- Shared lemma: a summary text with at least 4 lines whose trimmed
second-to-last line is one leading character followed by a string whose
comma-free form parses returns exactly the parsed number. -/
theorem returnLineSummary_parses (out : Str) (c : Char) (s : Str) (q : ℚ)
    (hlen : 4 ≤ (splitOnChar '\n' out).length)
    (hsum : trimSpace (secondToLast (splitOnChar '\n' out)) = c :: s)
    (hparse : parseFloat (removeCommas s) = some q) :
    returnLineSummary out = .ok q := by
  simp only [returnLineSummary]
  rw [if_neg (by omega), if_neg (by rw [hsum]; simp), hsum]
  simp [parseMoney, hparse]

/-- C9: for every summary text with at least 4 lines whose trimmed
second-to-last line is a leading currency-symbol character followed by a
string whose comma-free form parses as a decimal (any sign/decimal
combination), `parseSummaryLine` returns exactly that number. -/
theorem summary_wellformed_parses (out : Str) (c : Char) (s : Str) (q : ℚ)
    (hlen : 4 ≤ (splitOnChar '\n' out).length)
    (hsum : trimSpace (secondToLast (splitOnChar '\n' out)) = c :: s)
    (hparse : parseFloat (removeCommas s) = some q) :
    returnLineSummary out = .ok q :=
  returnLineSummary_parses out c s q hlen hsum hparse

/-- Witness for C9 at a negative amount with a thousands separator. -/
theorem summary_wellformed_parses_witness :
    4 ≤ (splitOnChar '\n' "a\nb\n$-1,234.56\n".toList).length ∧
    trimSpace (secondToLast (splitOnChar '\n' "a\nb\n$-1,234.56\n".toList))
      = '$' :: "-1,234.56".toList ∧
    parseFloat (removeCommas "-1,234.56".toList) = some (-1234.56 : ℚ) ∧
    returnLineSummary "a\nb\n$-1,234.56\n".toList = .ok (-1234.56 : ℚ) := by
  refine ⟨by decide, by decide, ?_, ?_⟩
  · simp +decide [parseFloat, parseUnsigned, removeCommas, splitOnChar, allDigitsVal,
      digitsValAux]
    norm_num
  · exact summary_wellformed_parses _ '$' "-1,234.56".toList _ (by decide) (by decide)
      (by simp +decide [parseFloat, parseUnsigned, removeCommas, splitOnChar, allDigitsVal,
            digitsValAux]
          norm_num)

/-- C4 counterexample: on the claim's literal input
`"foo\nbar\n$1,234.56\n\n"` the second-to-last line is the blank line
between the two trailing newlines, so `parseSummaryLine` returns
`MalformedOutput` instead of 1234.56. -/
theorem summary_scenario_extra_blank_line :
    returnLineSummary "foo\nbar\n$1,234.56\n\n".toList = .err .malformedOutput ∧
    returnLineSummary "foo\nbar\n$1,234.56\n\n".toList ≠ .ok (1234.56 : ℚ) := by
  constructor
  · decide
  · decide

/-- C4 amended: for any two leading lines, the input
`"<line>\n<line>\n$1,234.56\n"` — one trailing newline, so the dollar
line is second-to-last — parses to 1234.56. -/
theorem summary_scenario_single_trailing_newline (a b : Str) :
    returnLineSummary (a ++ '\n' :: (b ++ '\n' :: "$1,234.56\n".toList)) = .ok (1234.56 : ℚ) := by
  have htail : splitOnChar '\n' "$1,234.56\n".toList = ["$1,234.56".toList, []] := by decide
  have hsplit : splitOnChar '\n' (a ++ '\n' :: (b ++ '\n' :: "$1,234.56\n".toList))
      = (splitOnChar '\n' a ++ splitOnChar '\n' b) ++ ["$1,234.56".toList, []] := by
    rw [splitOnChar_append_cons, splitOnChar_append_cons, htail, List.append_assoc]
  have ha := splitOnChar_length_pos '\n' a
  have hb := splitOnChar_length_pos '\n' b
  have hlen : ((splitOnChar '\n' a ++ splitOnChar '\n' b) ++
      (["$1,234.56".toList, []] : List Str)).length
      = (splitOnChar '\n' a ++ splitOnChar '\n' b).length + 2 := by
    simp only [List.length_append, List.length_cons, List.length_nil]
  have hsum : secondToLast ((splitOnChar '\n' a ++ splitOnChar '\n' b) ++
      (["$1,234.56".toList, []] : List Str)) = "$1,234.56".toList := by
    unfold secondToLast
    rw [hlen, Nat.add_sub_cancel]
    have := getD_append_length (splitOnChar '\n' a ++ splitOnChar '\n' b)
      (["$1,234.56".toList, []] : List Str) 0 ([] : Str)
    rw [Nat.add_zero] at this
    rw [this]
    rfl
  apply returnLineSummary_parses _ '$' "1,234.56".toList
  · rw [hsplit, hlen]
    simp only [List.length_append, List.length_cons, List.length_nil]
    omega
  · rw [hsplit, hsum]
    decide
  · simp +decide [parseFloat, parseUnsigned, removeCommas, splitOnChar, allDigitsVal,
      digitsValAux]
    norm_num

/-- Witness for C4 (amended) at the concrete lines `foo` and `bar`. -/
theorem summary_scenario_single_trailing_newline_witness :
    returnLineSummary ("foo".toList ++ '\n' :: ("bar".toList ++ '\n' :: "$1,234.56\n".toList))
      = .ok (1234.56 : ℚ) :=
  summary_scenario_single_trailing_newline "foo".toList "bar".toList

/-- C3 counterexample: on the scenario input
`"header\n------\n  10 AAPL @ $150.00\n\n"`, `parseCostBasisTable`
(`getCostBasis`) does not succeed at all, so it does not return
`{"AAPL": 1500.0}`. -/
theorem cost_basis_scenario_fails :
    goOk (getCostBasis "header\n------\n  10 AAPL @ $150.00\n\n".toList) = false := by
  decide

/-- C3 amended: on that input the call fails with `MalformedOutput`: the
segment after the dash marker is `"  10 AAPL @ $150.00\n\n"`, whose first
line — the only data row — is dropped as the header and whose last
(empty) line is dropped as the footer, leaving the single empty line
between the two trailing newlines, which splits into fewer than 3
tokens. -/
theorem cost_basis_scenario_malformed :
    getCostBasis "header\n------\n  10 AAPL @ $150.00\n\n".toList
      = .error .malformedOutput ∧
    keptRows "header\n------\n  10 AAPL @ $150.00\n\n".toList = [[]] := by
  constructor
  · decide
  · decide

/-- C2: contrary to the claim, two of the three parsing operations are not
total: `returnSingleLine` panics (Go slice-bounds panic on
`Split(...)[0][1:]`) on empty or all-white-space input, and `getCostBasis`
panics (on `values[2][2:len(values[2])-1]`) on a row whose third token has
fewer than three characters, instead of returning an error value. -/
theorem parsers_not_total :
    returnSingleLine [] = .panic ∧
    returnSingleLine "  ".toList = .panic ∧
    getCostBasis "h\n------\nH\n2 B zw\nF".toList = .panic := by
  refine ⟨by decide, by decide, by decide⟩

/-- C1: the per-security loop guards nothing: with a zero-basis security
whose market lookup returns 1.0, `main` completes and hands the sink a
`gain-percent` field equal to IEEE `+Inf` (raw `(value-basis)/basis` with
`basis = 0`), contradicting the omit-or-sentinel contract. -/
theorem gain_percent_inf_reaches_sink :
    runMain envZeroBasis = .completed [mkSecPoint "Z".toList 0 1,
      mkMandPoint iraTag 1 1, mkMandPoint taxTag 1 1] ∧
    (fGainPercent, FloatVal.posInf) ∈ (mkSecPoint "Z".toList 0 1).fields ∧
    pointsWritten (runMain envZeroBasis) ≠ [] := by
  have hdiv : goDiv (1 : ℚ) 0 = FloatVal.posInf := by
    rw [goDiv, if_pos rfl, if_pos (by norm_num)]
  refine ⟨?_, ?_, ?_⟩
  · simp [envZeroBasis, runMain, tickerLoop]
  · simp [mkSecPoint, hdiv]
  · have h : runMain envZeroBasis = .completed [mkSecPoint "Z".toList 0 1,
        mkMandPoint iraTag 1 1, mkMandPoint taxTag 1 1] := by
      simp [envZeroBasis, runMain, tickerLoop]
    rw [h]
    simp [pointsWritten]

/-- C6: if the query or parse of any mandatory account fails, the cycle
aborts with exit code 1, no point is written and the sink's flush does
not run (the sink is created only on the success path). -/
theorem mandatory_failure_aborts (env : Env) (h : mandatoryFailed env = true) :
    runMain env = .aborted 1 ∧ pointsWritten (runMain env) = [] ∧
    flushCalled (runMain env) = false := by
  obtain ⟨bI, bT, mI, mT, mh, pd, cb, tm⟩ := env
  cases bI with
  | err e => exact ⟨rfl, by simp [runMain, pointsWritten], by simp [runMain, flushCalled]⟩
  | ok q1 =>
    cases bT with
    | err e => exact ⟨rfl, by simp [runMain, pointsWritten], by simp [runMain, flushCalled]⟩
    | ok q2 =>
      cases hmp : (mh && !pd) with
      | true =>
        refine ⟨?_, ?_, ?_⟩ <;> simp [runMain, hmp, pointsWritten, flushCalled]
      | false =>
        cases mI with
        | err e =>
          refine ⟨?_, ?_, ?_⟩ <;> simp [runMain, hmp, pointsWritten, flushCalled]
        | ok q3 =>
          cases mT with
          | err e =>
            refine ⟨?_, ?_, ?_⟩ <;> simp [runMain, hmp, pointsWritten, flushCalled]
          | ok q4 => simp [mandatoryFailed, resErr] at h

/-- Witness for C6: a cycle whose IRA basis query fails aborts with code 1
and flushes nothing. -/
theorem mandatory_failure_aborts_witness :
    mandatoryFailed envMandFail = true ∧
    (runMain envMandFail = .aborted 1 ∧ pointsWritten (runMain envMandFail) = [] ∧
      flushCalled (runMain envMandFail) = false) :=
  ⟨by decide, mandatory_failure_aborts envMandFail (by decide)⟩

/-- Per-security loop: an erroring ticker is skipped while every other
entry with a successful lookup becomes a point; the loop itself never
fails. -/
theorem tickerLoop_skips (env : Env) (t : Str) (e : GoError) (m : CostMap)
    (hfail : env.tickerMarket t = .error e)
    (hok : ∀ p ∈ m, p.1 ≠ t → goOk (env.tickerMarket p.1) = true) :
    ∃ pts, tickerLoop env m = some pts ∧
      (∀ pt ∈ pts, pt.account ≠ t) ∧
      (∀ p ∈ m, p.1 ≠ t → ∃ q, env.tickerMarket p.1 = .ok q ∧ mkSecPoint p.1 p.2 q ∈ pts) := by
  induction m with
  | nil => exact ⟨[], rfl, by simp, by simp⟩
  | cons hd rest ih =>
    obtain ⟨k, b⟩ := hd
    obtain ⟨pts, hpts, hacc, hmem⟩ :=
      ih (fun p hp => hok p (List.mem_cons_of_mem _ hp))
    by_cases hk : k = t
    · subst hk
      refine ⟨pts, ?_, hacc, ?_⟩
      · simp [tickerLoop, hfail, hpts]
      · intro p hp hne
        rcases List.mem_cons.mp hp with h | h
        · exact absurd (by rw [h]) hne
        · exact hmem p h hne
    · have hgo : goOk (env.tickerMarket k) = true :=
        hok (k, b) (List.mem_cons_self _ _) hk
      cases hv : env.tickerMarket k with
      | ok q =>
        refine ⟨mkSecPoint k b q :: pts, ?_, ?_, ?_⟩
        · simp [tickerLoop, hv, hpts]
        · intro pt hpt
          rcases List.mem_cons.mp hpt with h | h
          · rw [h]; exact hk
          · exact hacc pt h
        · intro p hp hne
          rcases List.mem_cons.mp hp with h | h
          · exact ⟨q, by rw [h]; exact hv, by rw [h]; exact List.mem_cons_self _ _⟩
          · obtain ⟨q', hq', hm'⟩ := hmem p h hne
            exact ⟨q', hq', List.mem_cons_of_mem _ hm'⟩
      | error e' => rw [hv] at hgo; simp [goOk] at hgo
      | panic => rw [hv] at hgo; simp [goOk] at hgo

/-- C7: in the optional per-security loop, one ticker's failing market
lookup is non-fatal: the cycle completes, that ticker contributes no
point, and every other ticker of the cost-basis mapping (whose lookup
succeeds) is still reported. -/
theorem optional_ticker_failure_nonfatal (env : Env) (b1 b2 m1 m2 : ℚ) (m : CostMap)
    (t : Str) (e : GoError)
    (h1 : env.basisIra = .ok b1) (h2 : env.basisTax = .ok b2)
    (h3 : env.marketIra = .ok m1) (h4 : env.marketTax = .ok m2)
    (h5 : (env.marketHours && !env.priceDbOk) = false)
    (h6 : env.costBasis = .ok m)
    (h7 : env.tickerMarket t = .error e)
    (h8 : ∀ p ∈ m, p.1 ≠ t → goOk (env.tickerMarket p.1) = true) :
    ∃ pts, tickerLoop env m = some pts ∧
      runMain env = .completed (pts ++ [mkMandPoint iraTag b1 m1, mkMandPoint taxTag b2 m2]) ∧
      (∀ pt ∈ pts, pt.account ≠ t) ∧
      (∀ p ∈ m, p.1 ≠ t → ∃ q, env.tickerMarket p.1 = .ok q ∧ mkSecPoint p.1 p.2 q ∈ pts) := by
  obtain ⟨pts, hpts, hacc, hmem⟩ := tickerLoop_skips env t e m h7 h8
  refine ⟨pts, hpts, ?_, hacc, hmem⟩
  simp [runMain, h1, h2, h3, h4, h5, h6, hpts]

/-- Witness for C7: ticker `A` fails and is omitted while ticker `B` is
still reported and the cycle completes. -/
theorem optional_ticker_failure_nonfatal_witness :
    envTickerFail.tickerMarket "A".toList = .error .externalProcessError ∧
    (∃ pts, tickerLoop envTickerFail [("A".toList, 1), ("B".toList, 2)] = some pts ∧
      runMain envTickerFail
        = .completed (pts ++ [mkMandPoint iraTag 1 3, mkMandPoint taxTag 2 4]) ∧
      (∀ pt ∈ pts, pt.account ≠ "A".toList) ∧
      (∀ p ∈ ([("A".toList, 1), ("B".toList, 2)] : CostMap), p.1 ≠ "A".toList →
        ∃ q, envTickerFail.tickerMarket p.1 = .ok q ∧ mkSecPoint p.1 p.2 q ∈ pts)) :=
  ⟨by decide,
    optional_ticker_failure_nonfatal envTickerFail 1 2 3 4 _ "A".toList .externalProcessError
      rfl rfl rfl rfl (by decide) rfl (by decide) (by decide)⟩

/-- Erasing a key removes exactly the entries with that key from lookups:
the erased key maps to nothing. -/
theorem mapLookup_erase_self (m : CostMap) (k : Str) :
    mapLookup (mapErase m k) k = none := by
  induction m with
  | nil => rfl
  | cons p rest ih =>
    simp only [mapErase]
    by_cases h : p.1 = k
    · rw [if_pos h]; exact ih
    · rw [if_neg h]
      simp only [mapLookup]
      rw [if_neg h]
      exact ih

/-- Erasing one key leaves lookups of other keys unchanged. -/
theorem mapLookup_erase_other (m : CostMap) (k t : Str) (h : t ≠ k) :
    mapLookup (mapErase m k) t = mapLookup m t := by
  induction m with
  | nil => rfl
  | cons p rest ih =>
    simp only [mapErase, mapLookup]
    by_cases hp : p.1 = k
    · rw [if_pos hp, if_neg (by rw [hp]; exact fun hh => h hh.symm), ih]
    · rw [if_neg hp]
      simp only [mapLookup]
      by_cases ht : p.1 = t
      · rw [if_pos ht, if_pos ht]
      · rw [if_neg ht, if_neg ht, ih]

/-- Lookup distributes over list append of map representations. -/
theorem mapLookup_append (m1 m2 : CostMap) (t : Str) :
    mapLookup (m1 ++ m2) t =
      match mapLookup m1 t with
      | some v => some v
      | none => mapLookup m2 t := by
  induction m1 with
  | nil => rfl
  | cons p rest ih =>
    simp only [List.cons_append, mapLookup]
    by_cases h : p.1 = t
    · rw [if_pos h, if_pos h]
    · rw [if_neg h, if_neg h, List.append_eq, ih]

/-- Go map assignment: the inserted key maps to the new value and nothing
else changes. -/
theorem mapLookup_insert (m : CostMap) (k t : Str) (v : ℚ) :
    mapLookup (mapInsert m k v) t = if t = k then some v else mapLookup m t := by
  unfold mapInsert
  rw [mapLookup_append]
  by_cases h : t = k
  · subst h
    rw [mapLookup_erase_self]
    show mapLookup [(t, v)] t = if t = t then some v else mapLookup m t
    simp [mapLookup]
  · rw [mapLookup_erase_other m k t h, if_neg h]
    cases mapLookup m t with
    | some v' => rfl
    | none =>
      simp only [mapLookup]
      rw [if_neg (fun hh => h hh.symm)]

/-- `find?` over an append takes the first hit of the first list. -/
theorem find_over_append {α : Type} (p : α → Bool) (l1 l2 : List α) :
    (l1 ++ l2).find? p = optOr (l1.find? p) (l2.find? p) := by
  induction l1 with
  | nil => rfl
  | cons a l ih =>
    simp only [List.cons_append, List.find?]
    cases p a with
    | true => rfl
    | false => exact ih

/-- `Option.map` distributes over `optOr`. -/
theorem optOr_map {α β : Type} (f : α → β) (a b : Option α) :
    (optOr a b).map f = optOr (a.map f) (b.map f) := by
  cases a with
  | some x => rfl
  | none => rfl

/-- `none` is a right identity for `optOr`. -/
theorem optOr_none {α : Type} (a : Option α) : optOr a none = a := by
  cases a with
  | some x => rfl
  | none => rfl

/-- When every row is well formed the loop runs to completion and is the
pure fold. -/
theorem costLoop_ok (rows : List Str) (acc : CostMap)
    (hall : ∀ r ∈ rows, rowOk r = true) :
    costLoop rows acc = .ok (costFold rows acc) := by
  induction rows generalizing acc with
  | nil => rfl
  | cons r rest ih =>
    have hr := hall r (List.mem_cons_self _ _)
    cases hp : parseCostRow r with
    | ok tv =>
      have hre : rowEntry r = some tv := by simp [rowEntry, hp]
      simp only [costLoop, hp, costFold, List.foldl_cons, hre]
      exact ih (mapInsert acc tv.1 tv.2) (fun x hx => hall x (List.mem_cons_of_mem _ hx))
    | error e => simp [rowOk, hp] at hr
    | panic => simp [rowOk, hp] at hr

/-- Lookup in the fold result: the last well-formed row for the key wins,
falling back to the accumulator. -/
theorem mapLookup_costFold (rows : List Str) (acc : CostMap) (t : Str)
    (hall : ∀ r ∈ rows, rowOk r = true) :
    mapLookup (costFold rows acc) t = optOr (lastRowVal rows t) (mapLookup acc t) := by
  induction rows generalizing acc with
  | nil => rfl
  | cons r rest ih =>
    have hr := hall r (List.mem_cons_self _ _)
    cases hp : parseCostRow r with
    | error e => simp [rowOk, hp] at hr
    | panic => simp [rowOk, hp] at hr
    | ok tv =>
      have hre : rowEntry r = some tv := by simp [rowEntry, hp]
      have hfold : costFold (r :: rest) acc = costFold rest (mapInsert acc tv.1 tv.2) := by
        simp only [costFold, List.foldl_cons, hre]
      have hfm : (r :: rest).filterMap rowEntry = tv :: rest.filterMap rowEntry := by
        simp [List.filterMap_cons, hre]
      have hlast : lastRowVal (r :: rest) t
          = optOr (lastRowVal rest t)
              ((List.find? (fun p => decide (p.1 = t)) [tv]).map Prod.snd) := by
        unfold lastRowVal
        rw [hfm, List.reverse_cons, find_over_append, optOr_map]
      rw [hfold, ih (mapInsert acc tv.1 tv.2) (fun x hx => hall x (List.mem_cons_of_mem _ hx)),
        hlast]
      cases lastRowVal rest t with
      | some v => rfl
      | none =>
        rw [mapLookup_insert]
        simp only [List.find?]
        by_cases h : tv.1 = t
        · rw [if_pos h.symm, decide_eq_true h]
          rfl
        · rw [if_neg (fun hh => h hh.symm), decide_eq_false h]
          rfl

/-- C5 counterexample: on the row `2 T 1150.09` the code computes the
entry value from the third token with its first TWO characters and last
character discarded (`basis = 50.0`, entry `T ↦ 100`), while the claim's
one-leading-character reading gives `unitCost = 150.0` and would predict
`2 × 150 = 300`. -/
theorem cost_basis_strips_two_not_one :
    getCostBasis "h\n------\nH\n2 T 1150.09\nF".toList = .ok [("T".toList, (100 : ℚ))] ∧
    specUnitCost "1150.09".toList = some (150.0 : ℚ) ∧
    (2 : ℚ) * 150 ≠ 100 := by
  refine ⟨?_, ?_, by norm_num⟩
  · simp +decide [getCostBasis, keptRows, splitDashes, splitOnChar, costLoop, parseCostRow,
      parseFloat, parseUnsigned, allDigitsVal, digitsValAux, mapInsert, mapErase, List.getD]
    norm_num
  · simp +decide [specUnitCost, removeCommas, splitOnChar, parseFloat, parseUnsigned,
      allDigitsVal, digitsValAux]
    norm_num

/-- C5 amended: whenever the table has the dash marker and at least two
lines after it, and every kept row is well formed under the code's actual
token treatment (≥ 3 space-separated tokens; quantity parses; the third
token has ≥ 3 characters and, after discarding its first two characters
and its last character with no comma removal, parses), `getCostBasis`
succeeds with the fold of the rows, and each ticker maps to the value
`quantity × unitCost` of its LAST well-formed row (last write wins, no
aggregation). -/
theorem cost_basis_wellformed_rows (out : Str)
    (hseg : 2 ≤ (splitDashes out).length)
    (hlines : 2 ≤ (splitOnChar '\n' ((splitDashes out).getD 1 [])).length)
    (hall : ∀ r ∈ keptRows out, rowOk r = true) :
    getCostBasis out = .ok (costFold (keptRows out) []) ∧
    ∀ t, mapLookup (costFold (keptRows out) []) t = lastRowVal (keptRows out) t := by
  constructor
  · simp only [getCostBasis]
    rw [if_neg (by omega), if_neg (by omega)]
    exact costLoop_ok _ _ hall
  · intro t
    rw [mapLookup_costFold (keptRows out) [] t hall]
    show optOr (lastRowVal (keptRows out) t) none = lastRowVal (keptRows out) t
    exact optOr_none _

/-- Witness for C5 at a table with a duplicate ticker: both rows are well
formed and the later row (`3 A x$4.00y`, value 12) overwrites the earlier
one (value 5). -/
theorem cost_basis_wellformed_rows_witness :
    (2 ≤ (splitDashes "h\n------\nH\n2 A x$2.50y\n3 A x$4.00y\nF".toList).length ∧
      2 ≤ (splitOnChar '\n'
        ((splitDashes "h\n------\nH\n2 A x$2.50y\n3 A x$4.00y\nF".toList).getD 1 [])).length ∧
      ∀ r ∈ keptRows "h\n------\nH\n2 A x$2.50y\n3 A x$4.00y\nF".toList, rowOk r = true) ∧
    (getCostBasis "h\n------\nH\n2 A x$2.50y\n3 A x$4.00y\nF".toList
        = .ok (costFold (keptRows "h\n------\nH\n2 A x$2.50y\n3 A x$4.00y\nF".toList) []) ∧
      ∀ t, mapLookup (costFold (keptRows "h\n------\nH\n2 A x$2.50y\n3 A x$4.00y\nF".toList) []) t
        = lastRowVal (keptRows "h\n------\nH\n2 A x$2.50y\n3 A x$4.00y\nF".toList) t) :=
  ⟨⟨by decide, by decide, by decide⟩,
    cost_basis_wellformed_rows "h\n------\nH\n2 A x$2.50y\n3 A x$4.00y\nF".toList
      (by decide) (by decide) (by decide)⟩

/-- A row with fewer than 3 space-separated tokens makes the loop
iteration fail structurally. -/
theorem parseCostRow_short (line : Str) (h : (splitOnChar ' ' line).length < 3) :
    parseCostRow line = .error .malformedOutput := by
  simp only [parseCostRow]
  rw [if_pos h]

/-- Running the loop over well-formed rows followed by a short row always
returns the structural error, whatever comes after. -/
theorem costLoop_short_row (bad : Str) (hbad : (splitOnChar ' ' bad).length < 3) :
    ∀ (pre post : List Str) (acc : CostMap), (∀ r ∈ pre, rowOk r = true) →
      costLoop (pre ++ bad :: post) acc = .error .malformedOutput := by
  intro pre
  induction pre with
  | nil =>
    intro post acc _
    simp [costLoop, parseCostRow_short bad hbad]
  | cons r rest ih =>
    intro post acc hpre
    have hr := hpre r (List.mem_cons_self _ _)
    cases hp : parseCostRow r with
    | ok tv =>
      simp only [List.cons_append, costLoop, hp]
      exact ih post (mapInsert acc tv.1 tv.2) (fun x hx => hpre x (List.mem_cons_of_mem _ hx))
    | error e => simp [rowOk, hp] at hr
    | panic => simp [rowOk, hp] at hr

/-- C10 counterexample: the claim is not unconditional — in this table the
row `ab` has fewer than 3 tokens, yet the earlier row `1 A xy` (3 tokens,
parseable quantity, third token of length 2) makes the Go program panic on
the `values[2][2:len-1]` slice before the short row is reached, so the
call panics instead of returning `MalformedOutput`. -/
theorem short_row_preempted_by_panic :
    keptRows "h\n------\nH\n1 A xy\nab\nF".toList = ["1 A xy".toList, "ab".toList] ∧
    (splitOnChar ' ' "ab".toList).length < 3 ∧
    getCostBasis "h\n------\nH\n1 A xy\nab\nF".toList = .panic ∧
    GoResult.panic ≠ (.error .malformedOutput : GoResult CostMap) := by
  refine ⟨by decide, by decide, by decide, by decide⟩

/-- C10 amended: if some kept data row splits into fewer than 3 tokens and
every kept row before it is well formed (so no earlier row panics or
errors first), the whole call fails with `MalformedOutput` and returns no
mapping. -/
theorem short_row_fails_whole_call (out : Str) (pre post : List Str) (bad : Str)
    (hseg : 2 ≤ (splitDashes out).length)
    (hlines : 2 ≤ (splitOnChar '\n' ((splitDashes out).getD 1 [])).length)
    (hkept : keptRows out = pre ++ bad :: post)
    (hpre : ∀ r ∈ pre, rowOk r = true)
    (hbad : (splitOnChar ' ' bad).length < 3) :
    getCostBasis out = .error .malformedOutput := by
  simp only [getCostBasis]
  rw [if_neg (by omega), if_neg (by omega), hkept]
  exact costLoop_short_row bad hbad pre post [] hpre

/-- Witness for C10: one well-formed row followed by the 1-token row `ab`
fails the whole call with `MalformedOutput`. -/
theorem short_row_fails_whole_call_witness :
    (keptRows "h\n------\nH\n2 A x$2.50y\nab\nF".toList
        = ["2 A x$2.50y".toList] ++ "ab".toList :: [] ∧
      (∀ r ∈ (["2 A x$2.50y".toList] : List Str), rowOk r = true) ∧
      (splitOnChar ' ' "ab".toList).length < 3) ∧
    getCostBasis "h\n------\nH\n2 A x$2.50y\nab\nF".toList = .error .malformedOutput :=
  ⟨⟨by decide, by decide, by decide⟩,
    short_row_fails_whole_call "h\n------\nH\n2 A x$2.50y\nab\nF".toList
      ["2 A x$2.50y".toList] [] "ab".toList (by decide) (by decide) (by decide)
      (by decide) (by decide)⟩

end Theorems

end Helios
